import Mathlib

/-!
Shallow embedding of the reconciliation core of `src/app.py`
(thai-credit-analyzer): the fingerprint index (`find_duplicate_statement`),
the statement matcher (`find_similar_statement`), the transaction overlap
detector (`find_overlapping_transactions`), the consensus aggregation of
`process_uploaded_file`, the duplicate-decision policy of `page_import`,
and the storage commit `save_transactions`.

Modelling conventions: Python floats are embedded as rationals (`ℚ`);
SQLite rows are Lean structures and tables are lists in stored (rowid)
order; a Python dict that may lack a key is an `Option` field; a raised
exception is the `some`-error component of the result.
-/

namespace CreditAnalyzer

/-- A row of the `transactions` table restricted to the columns the
reconciliation queries read (`trans_date`, `description`, `amount`).
The same shape models a candidate transaction dict (its
`t.get("trans_date", "")` defaults are the field values). -/
structure Tx where
  trans_date : String
  description : String
  amount : ℚ
  deriving Repr, DecidableEq

/-- A row of the `statements` table together with the transactions that
reference it via `statement_id` (the join used by `find_similar_statement`).
`file_hash` is the nullable comma-joined fingerprint column. -/
structure Stmt where
  id : Nat
  filename : String
  bank : String
  period : String
  file_hash : Option String
  txs : List Tx
  deriving Repr, DecidableEq

/-- The database visible to the read-only reconciliation queries. -/
structure DB where
  stmts : List Stmt
  deriving Repr, DecidableEq

/-- All rows of the `transactions` table (the un-joined scans of
`find_overlapping_transactions`). -/
def allTxs (db : DB) : List Tx :=
  db.stmts.foldr (fun s acc => s.txs ++ acc) []

/-- Python `h.strip()`: drop whitespace from both ends (structurally over
the character list, so that concrete witnesses evaluate). -/
def trimChars (l : List Char) : List Char :=
  ((l.dropWhile (fun c => c.isWhitespace)).reverse.dropWhile
    (fun c => c.isWhitespace)).reverse

/-- Python `s.split(",")` over the character list: every comma separates,
and the empty string splits to `[""]`. -/
def splitCommaAux : List Char → List Char → List (List Char)
  | [], acc => [acc.reverse]
  | c :: cs, acc =>
    if c = ',' then acc.reverse :: splitCommaAux cs []
    else splitCommaAux cs (c :: acc)

/-- `[h.strip() for h in (row["file_hash"] or "").split(",")]` of
`find_duplicate_statement`. -/
def splitHashes (s : String) : List String :=
  (splitCommaAux s.data []).map (fun l => String.mk (trimChars l))

/-- `find_duplicate_statement` (src/app.py:228): `None` for a falsy hash,
else the first stored statement (rowid order) whose non-null `file_hash`
column, split on commas, contains the fingerprint. Pure read. -/
def find_duplicate_statement (db : DB) (file_hash : String) : Option Stmt :=
  if file_hash = "" then none
  else (db.stmts.filter (fun s => s.file_hash.isSome)).find?
    (fun s => (splitHashes (s.file_hash.getD "")).contains file_hash)

/-- The stored positive-amount total of one statement:
`COALESCE(SUM(CASE WHEN t.amount > 0 THEN t.amount ELSE 0 END), 0)`. -/
def posTotal (s : Stmt) : ℚ :=
  (s.txs.map (fun t => if 0 < t.amount then t.amount else 0)).sum

/-- One entry of the list returned by `find_similar_statement`: the matched
statement row plus the computed `diff_ratio` and `bank_match` flags. -/
structure MatchCandidate where
  stmt : Stmt
  diff_ratio : ℚ
  bank_match : Bool
  deriving Repr, DecidableEq

/-- `find_similar_statement` (src/app.py:246): over all stored statements of
the given period (bank is not a filter), keep the both-zero-totals case with
ratio 0, skip a zero stored total against a nonzero incoming one, and
otherwise include iff `|incoming - stored| / max(|stored|, 1) <= tolerance`. -/
def find_similar_statement (db : DB) (bank period : String)
    (total_amount : ℚ) (tolerance : ℚ := 1/20) : List MatchCandidate :=
  (db.stmts.filter (fun s => s.period == period)).filterMap (fun s =>
    let existing_total := posTotal s
    if existing_total = 0 ∧ total_amount = 0 then
      some ⟨s, 0, s.bank == bank⟩
    else if existing_total = 0 then none
    else
      let diff_ratio := |total_amount - existing_total| / max |existing_total| 1
      if diff_ratio ≤ tolerance then some ⟨s, diff_ratio, s.bank == bank⟩
      else none)

/-- The dict returned by `find_overlapping_transactions`. The
`positive_total` key is present only on the full-computation path, hence an
`Option`. -/
structure OverlapResult where
  exact_count : Nat
  soft_count : Nat
  overlap_ratio : ℚ
  total : Nat
  positive_total : Option Nat
  deriving Repr, DecidableEq

/-- The exact-match existence query of `find_overlapping_transactions`:
`trans_date = ? AND description = ? AND ABS(amount - ?) < 1.0 LIMIT 1`. -/
def exactMatchB (db : DB) (c : Tx) : Bool :=
  (allTxs db).any (fun t =>
    t.trans_date == c.trans_date && t.description == c.description &&
      decide (|t.amount - c.amount| < 1))

/-- The soft-match existence query of `find_overlapping_transactions`:
`trans_date = ? AND ABS(amount - ?) < 1.0 LIMIT 1` (description ignored). -/
def softMatchB (db : DB) (c : Tx) : Bool :=
  (allTxs db).any (fun t =>
    t.trans_date == c.trans_date && decide (|t.amount - c.amount| < 1))

/-- `find_overlapping_transactions` (src/app.py:280): the loop skips
non-positive amounts, so the counts equal the numbers of positive-amount
candidates whose existence query succeeds; `overlap_ratio` is
`soft_count / positive_total` with the two degenerate early returns. -/
def find_overlapping_transactions (db : DB) (transactions : List Tx) :
    OverlapResult :=
  if transactions.isEmpty then ⟨0, 0, 0, 0, none⟩ else
  let qual := transactions.filter (fun t => decide (0 < t.amount))
  let exact_count := (qual.filter (fun t => exactMatchB db t)).length
  let soft_count := (qual.filter (fun t => softMatchB db t)).length
  let positive_total := qual.length
  if positive_total = 0 then ⟨0, 0, 0, transactions.length, none⟩ else
  ⟨exact_count, soft_count, (soft_count : ℚ) / (positive_total : ℚ),
    transactions.length, some positive_total⟩

/-- Python `max` over a nonempty list of strings (lexicographic; on ties the
first maximal element, which is the same string). -/
def listMaxStr (d : String) (ds : List String) : String :=
  ds.foldl (fun a b => if a < b then b else a) d

/-- `est_period = max(dates)[:7] if dates else ""` over the rows with a
truthy `trans_date` (src/app.py:904-905). -/
def estPeriod (final : List Tx) : String :=
  match (final.filter (fun r => decide (r.trans_date ≠ ""))).map
      (fun r => r.trans_date) with
  | [] => ""
  | d :: ds => (listMaxStr d ds).take 7

/-- `total_amount = sum(r["amount"] for r in final if (r.get("amount") or 0) > 0)`
(src/app.py:902-903). -/
def batchPosTotal (final : List Tx) : ℚ :=
  ((final.filter (fun r => decide (0 < r.amount))).map (fun r => r.amount)).sum

/-- Outcome of one save attempt in `page_import`: either the pending batch is
parked behind the duplicate-confirmation checkbox, or it is saved at once. -/
inductive ImportOutcome
  | awaitingConfirmation
  | committed
  deriving Repr, DecidableEq

/-- The duplicate-decision policy of `page_import` (src/app.py:901-942):
statement-level warnings are collected from `find_similar_statement` (only
when `est_period` is truthy), a transaction-level warning is added when the
soft overlap ratio is at least 0.5, and the save is deferred exactly when
the collected warning list is nonempty. -/
def import_decision (db : DB) (bank : String) (final : List Tx) :
    ImportOutcome :=
  let est_period := estPeriod final
  let stmt_warnings :=
    if est_period ≠ "" then
      find_similar_statement db bank est_period (batchPosTotal final)
    else []
  let overlap := find_overlapping_transactions db final
  if stmt_warnings ≠ [] ∨ (1/2 : ℚ) ≤ overlap.overlap_ratio then
    ImportOutcome.awaitingConfirmation
  else ImportOutcome.committed

/-- A candidate transaction dict as handed to `save_transactions` (all the
keys the insert reads, with their `.get` defaults as field values). -/
structure InTx where
  trans_date : String
  posting_date : String
  description : String
  amount : ℚ
  category : String
  subcategory : Option String
  deriving Repr, DecidableEq

/-- A row of the `statements` table as inserted by `save_transactions`. -/
structure StmtRow where
  filename : String
  bank : String
  period : String
  imported_at : String
  tx_count : Nat
  cutoff_day : Option Nat
  file_hash : Option String
  deriving Repr, DecidableEq

/-- A row of the `transactions` table as inserted by `save_transactions`. -/
structure TxRow where
  statement_id : Nat
  trans_date : String
  posting_date : String
  description : String
  amount : ℚ
  category : String
  subcategory : Option String
  bank : String
  deriving Repr, DecidableEq

/-- The two persistent tables, in insertion order. -/
structure FlatDB where
  stmts : List StmtRow
  txs : List TxRow
  deriving Repr, DecidableEq

/-- An open SQLite connection. `committed` is the durable state (what
`close` without `commit` leaves behind, since closing rolls an open
transaction back); `pending` is the connection's own view including
uncommitted inserts. `commit` publishes `pending`. -/
structure Conn where
  committed : FlatDB
  pending : FlatDB
  deriving Repr, DecidableEq

def Conn.openDB (db : FlatDB) : Conn := ⟨db, db⟩

def Conn.commit (c : Conn) : Conn := ⟨c.pending, c.pending⟩

def Conn.close (c : Conn) : FlatDB := c.committed

def Conn.insertStmt (c : Conn) (r : StmtRow) : Conn :=
  ⟨c.committed, ⟨c.pending.stmts ++ [r], c.pending.txs⟩⟩

def Conn.insertTx (c : Conn) (r : TxRow) : Conn :=
  ⟨c.committed, ⟨c.pending.stmts, c.pending.txs ++ [r]⟩⟩

/-- The transaction row built inside the loop of `save_transactions`. -/
def mkTxRow (stmt_id : Nat) (bank : String) (t : InTx) : TxRow :=
  ⟨stmt_id, t.trans_date, t.posting_date, t.description, t.amount,
    t.category, t.subcategory, bank⟩

/-- `period = max(dates)[:7] if dates else datetime.now().strftime("%Y-%m")`
over the rows with a truthy `trans_date` (src/app.py:125-126); the wall
clock enters as the `nowPeriod` parameter. -/
def savePeriod (nowPeriod : String) (transactions : List InTx) : String :=
  match (transactions.filter (fun t => decide (t.trans_date ≠ ""))).map
      (fun t => t.trans_date) with
  | [] => nowPeriod
  | d :: ds => (listMaxStr d ds).take 7

/-- The statement row inserted by `save_transactions` (src/app.py:128-132):
comma-joined filenames and hashes (`None` when the hash list is falsy),
derived period, and the transaction count. -/
def saveStmtRow (nowPeriod nowIso bank : String) (filenames : List String)
    (transactions : List InTx) (cutoff_day : Option Nat)
    (file_hashes : List String) : StmtRow :=
  ⟨String.intercalate ", " filenames, bank,
    savePeriod nowPeriod transactions, nowIso, transactions.length,
    cutoff_day,
    if file_hashes = [] then none
    else some (String.intercalate "," file_hashes)⟩

/-- The per-row insert loop of `save_transactions`. An insert of the `i`-th
row raises (e.g. `float(...)` on a malformed amount, or a storage error)
when `failAt i`; a raise aborts the loop with the connection as it stood,
and the error text travels to the `finally` block. -/
def txInsertLoop (failAt : Nat → Bool) (stmt_id : Nat) (bank : String) :
    Nat → Conn → List InTx → Except (Conn × String) Conn
  | _, c, [] => Except.ok c
  | i, c, t :: ts =>
    if failAt i then Except.error (c, "insert failed")
    else txInsertLoop failAt stmt_id bank (i + 1)
      (c.insertTx (mkTxRow stmt_id bank t)) ts

/-- `save_transactions` (src/app.py:121-153): open a connection, insert the
statement row (which may itself raise, `stmtFails`), take `lastrowid`
(modelled as the new row count), insert every transaction row, commit, and
close in `finally`. There is no `except` clause, so a raised error
propagates to the caller — returned here as the `some` second component —
while the close-without-commit rolls the open transaction back. -/
def save_transactions (stmtFails : Bool) (failAt : Nat → Bool)
    (nowPeriod nowIso : String) (db : FlatDB) (bank : String)
    (filenames : List String) (transactions : List InTx)
    (cutoff_day : Option Nat) (file_hashes : List String) :
    FlatDB × Option String :=
  let c := Conn.openDB db
  if stmtFails then (c.close, some "insert failed") else
  let c := c.insertStmt
    (saveStmtRow nowPeriod nowIso bank filenames transactions cutoff_day
      file_hashes)
  let stmt_id := c.pending.stmts.length
  match txInsertLoop failAt stmt_id bank 0 c transactions with
  | Except.error (c, e) => (c.close, some e)
  | Except.ok c => (c.commit.close, none)

/-- The optional per-page metadata one extraction call contributes
(src/app.py:586-595); a page whose extraction failed contributes `none`
everywhere. -/
structure PageResult where
  cutoff_day : Option Nat
  bank_name : Option String
  card_name : Option String
  deriving Repr, DecidableEq

/-- `Counter(l).most_common(1)[0][0]` for nonempty `l`, `none` for `[]`.
`Counter` iterates keys in first-insertion order and `most_common` sorts
stably by descending count, so the winner is the highest-count value with
ties broken in favour of the first-observed one; the fold keeps the current
best and replaces it only on a strictly higher count, which computes
exactly that element. `mcStep` is one step of that fold. -/
def mcStep {α : Type} [DecidableEq α] (l : List α) (best : Option α)
    (c : α) : Option α :=
  match best with
  | none => some c
  | some b => if l.count b < l.count c then some c else some b

/-- The most-frequent-with-stable-tie-break reduction (see `mcStep`). -/
def mostCommon {α : Type} [DecidableEq α] (l : List α) : Option α :=
  l.foldl (mcStep l) none

/-- The truthy cutoff days collected across pages (src/app.py:590-591). -/
def collectCutoffDays (pages : List PageResult) : List Nat :=
  pages.filterMap (fun p => p.cutoff_day.bind
    (fun d => if d ≠ 0 then some d else none))

/-- The truthy bank names collected across pages (src/app.py:592-593). -/
def collectBankNames (pages : List PageResult) : List String :=
  pages.filterMap (fun p => p.bank_name.bind
    (fun b => if b ≠ "" then some b else none))

/-- The truthy card names collected across pages (src/app.py:594-595). -/
def collectCardNames (pages : List PageResult) : List String :=
  pages.filterMap (fun p => p.card_name.bind
    (fun b => if b ≠ "" then some b else none))

/-- The cutoff-day consensus of `process_uploaded_file` (src/app.py:599-602):
`None` when nothing was observed, else the most common observed value. -/
def cutoffConsensus (pages : List PageResult) : Option Nat :=
  mostCommon (collectCutoffDays pages)

/-- The bank-name consensus (src/app.py:655-657); the code's empty-string
sentinel for "nothing observed" is modelled as `none`. -/
def bankNameConsensus (pages : List PageResult) : Option String :=
  mostCommon (collectBankNames pages)

/-- The card-name consensus (src/app.py:656-658); empty-string sentinel
modelled as `none`. -/
def cardNameConsensus (pages : List PageResult) : Option String :=
  mostCommon (collectCardNames pages)

/-- A stored statement's fingerprint set contains `fp`: its non-null
`file_hash` column, split on commas and stripped, has an exact member
`fp`. -/
def ContainsHash (fp : String) (s : Stmt) : Prop :=
  ∃ h, s.file_hash = some h ∧ fp ∈ splitHashes h

/-- Invariant of the `mostCommon` fold after processing the prefix `p` of
the scanned list: the accumulator is `none` only on the empty prefix, and
otherwise holds a maximal-count element of `p` everything strictly before
whose first qualifying occurrence has a strictly smaller count. -/
def McInv {α : Type} [DecidableEq α] (l p : List α) : Option α → Prop
  | none => p = []
  | some v => v ∈ p ∧ (∀ x ∈ p, l.count x ≤ l.count v) ∧
      ∃ p1 p2, p = p1 ++ v :: p2 ∧ ∀ x ∈ p1, l.count x < l.count v

/-! ## Concrete stores and batches used by witnesses and counterexamples -/

/-- A one-statement store: period `2026-01`, fingerprints `h1,h2`, one
stored expense of 1000 on 2026-01-15. -/
def exStmt : Stmt :=
  ⟨1, "a.pdf", "KTB", "2026-01", some "h1,h2", [⟨"2026-01-15", "X", 1000⟩]⟩

def exDB : DB := ⟨[exStmt]⟩

/-- A store whose single statement has the tiny positive total 1/100. -/
def exStmtSmall : Stmt :=
  ⟨2, "b.pdf", "KTB", "2026-02", some "h9", [⟨"2026-02-01", "Y", 1/100⟩]⟩

def exDBSmall : DB := ⟨[exStmtSmall]⟩

/-- A store whose single statement has no transactions (zero total). -/
def exStmtZero : Stmt := ⟨3, "c.pdf", "SCB", "2026-03", none, []⟩

def exDBZero : DB := ⟨[exStmtZero]⟩

/-! ## Helper lemmas -/

/-- The exact-match query succeeds iff some stored transaction agrees on
date and description and lies strictly within 1.0 of the amount. -/
theorem exactMatchB_iff (db : DB) (c : Tx) :
    exactMatchB db c = true ↔
      ∃ t ∈ allTxs db, t.trans_date = c.trans_date ∧
        t.description = c.description ∧ |t.amount - c.amount| < 1 := by
  simp [exactMatchB, List.any_eq_true, Bool.and_eq_true, beq_iff_eq,
    decide_eq_true_eq, and_assoc]

/-- The soft-match query succeeds iff some stored transaction agrees on
date and lies strictly within 1.0 of the amount. -/
theorem softMatchB_iff (db : DB) (c : Tx) :
    softMatchB db c = true ↔
      ∃ t ∈ allTxs db, t.trans_date = c.trans_date ∧
        |t.amount - c.amount| < 1 := by
  simp [softMatchB, List.any_eq_true, Bool.and_eq_true, beq_iff_eq,
    decide_eq_true_eq]

/-- An exact match is in particular a soft match. -/
theorem exactMatchB_imp_soft (db : DB) (c : Tx)
    (h : exactMatchB db c = true) : softMatchB db c = true := by
  rcases (exactMatchB_iff db c).mp h with ⟨t, ht, h1, _, h3⟩
  exact (softMatchB_iff db c).mpr ⟨t, ht, h1, h3⟩

/-- A filter keeps everything iff it keeps the length. -/
theorem length_filter_eq_iff {α : Type} (p : α → Bool) (l : List α) :
    (l.filter p).length = l.length ↔ ∀ a ∈ l, p a = true := by
  constructor
  · intro h
    exact List.filter_eq_self.mp ((List.filter_sublist l).eq_of_length h)
  · intro h
    rw [List.filter_eq_self.mpr h]

/-- Soundness of `find_similar_statement`: any returned candidate refers to
a stored statement of the requested period, carries the advisory bank flag,
and is either the both-zero-totals case (ratio 0) or has a nonzero stored
total with `diff_ratio = |T - stored| / max |stored| 1 ≤ tol`. -/
theorem find_similar_sound (db : DB) (bank period : String) (T tol : ℚ)
    (c : MatchCandidate)
    (h : c ∈ find_similar_statement db bank period T tol) :
    c.stmt ∈ db.stmts ∧ c.stmt.period = period ∧
      c.bank_match = (c.stmt.bank == bank) ∧
      ((posTotal c.stmt = 0 ∧ T = 0 ∧ c.diff_ratio = 0) ∨
        (posTotal c.stmt ≠ 0 ∧
          c.diff_ratio = |T - posTotal c.stmt| / max |posTotal c.stmt| 1 ∧
          c.diff_ratio ≤ tol)) := by
  rw [find_similar_statement, List.mem_filterMap] at h
  obtain ⟨s, hsf, hfs⟩ := h
  obtain ⟨hs, hper⟩ := List.mem_filter.mp hsf
  rw [beq_iff_eq] at hper
  simp only [] at hfs
  by_cases h1 : posTotal s = 0 ∧ T = 0
  · rw [if_pos h1] at hfs
    injection hfs with hfs
    subst hfs
    exact ⟨hs, hper, rfl, Or.inl ⟨h1.1, h1.2, rfl⟩⟩
  · rw [if_neg h1] at hfs
    by_cases h2 : posTotal s = 0
    · rw [if_pos h2] at hfs
      exact absurd hfs (Option.noConfusion)
    · rw [if_neg h2] at hfs
      by_cases h3 : |T - posTotal s| / max |posTotal s| 1 ≤ tol
      · rw [if_pos h3] at hfs
        injection hfs with hfs
        subst hfs
        exact ⟨hs, hper, rfl, Or.inr ⟨h2, rfl, h3⟩⟩
      · rw [if_neg h3] at hfs
        exact absurd hfs (Option.noConfusion)

/-- A stored statement of the period whose total and the incoming total are
both zero is returned with ratio 0. -/
theorem find_similar_mem_of_zero (db : DB) (bank period : String) (tol : ℚ)
    (s : Stmt) (hs : s ∈ db.stmts) (hp : s.period = period)
    (h0 : posTotal s = 0) :
    (⟨s, 0, s.bank == bank⟩ : MatchCandidate) ∈
      find_similar_statement db bank period 0 tol := by
  rw [find_similar_statement, List.mem_filterMap]
  refine ⟨s, List.mem_filter.mpr ⟨hs, by rw [beq_iff_eq]; exact hp⟩, ?_⟩
  simp only []
  rw [if_pos ⟨h0, trivial⟩]

/-- A stored statement of the period with nonzero total and in-tolerance
difference ratio is returned with that ratio. -/
theorem find_similar_mem_of_ratio (db : DB) (bank period : String)
    (T tol : ℚ) (s : Stmt) (hs : s ∈ db.stmts) (hp : s.period = period)
    (hnz : posTotal s ≠ 0)
    (hle : |T - posTotal s| / max |posTotal s| 1 ≤ tol) :
    (⟨s, |T - posTotal s| / max |posTotal s| 1, s.bank == bank⟩ :
        MatchCandidate) ∈
      find_similar_statement db bank period T tol := by
  rw [find_similar_statement, List.mem_filterMap]
  refine ⟨s, List.mem_filter.mpr ⟨hs, by rw [beq_iff_eq]; exact hp⟩, ?_⟩
  simp only []
  rw [if_neg (fun hand => hnz hand.1), if_neg hnz, if_pos hle]

/-! ## Claim theorems -/

/-- **C3.** For every stored statement of the given period with nonzero
positive-amount total `S` and every incoming total `T`,
`find_similar_statement` includes that statement as a candidate iff
`|T - S| / max |S| 1 ≤ tolerance`; the boundary case is included. -/
theorem find_similar_tolerance_boundary (db : DB) (bank period : String)
    (T tol : ℚ) (s : Stmt) (hs : s ∈ db.stmts) (hp : s.period = period)
    (hnz : posTotal s ≠ 0) :
    (∃ c ∈ find_similar_statement db bank period T tol, c.stmt = s) ↔
      |T - posTotal s| / max |posTotal s| 1 ≤ tol := by
  constructor
  · rintro ⟨c, hc, hcs⟩
    obtain ⟨-, -, -, hcase⟩ := find_similar_sound db bank period T tol c hc
    rw [hcs] at hcase
    rcases hcase with ⟨h0, -, -⟩ | ⟨-, heq, hle⟩
    · exact absurd h0 hnz
    · rwa [heq] at hle
  · intro hle
    exact ⟨_, find_similar_mem_of_ratio db bank period T tol s hs hp hnz hle,
      rfl⟩

/-- **C3 witness.** Stored total 1000 at tolerance 1/20: incoming 1050
(difference ratio exactly the tolerance) is included, incoming 1051 is
excluded. -/
theorem find_similar_tolerance_boundary_witness :
    (∃ c ∈ find_similar_statement exDB "KTB" "2026-01" 1050 (1/20),
      c.stmt = exStmt) ∧
    ¬(∃ c ∈ find_similar_statement exDB "KTB" "2026-01" 1051 (1/20),
      c.stmt = exStmt) := by
  have hmem : exStmt ∈ exDB.stmts := by simp [exDB]
  have htot : posTotal exStmt = 1000 := by norm_num [posTotal, exStmt]
  have hnz : posTotal exStmt ≠ 0 := by rw [htot]; norm_num
  constructor
  · refine (find_similar_tolerance_boundary exDB "KTB" "2026-01" 1050 (1/20)
      exStmt hmem rfl hnz).mpr ?_
    rw [htot, abs_of_nonneg (by norm_num : (0:ℚ) ≤ 1050 - 1000),
      abs_of_nonneg (by norm_num : (0:ℚ) ≤ 1000),
      max_eq_left (by norm_num : (1:ℚ) ≤ 1000)]
    norm_num
  · intro h
    have hle := (find_similar_tolerance_boundary exDB "KTB" "2026-01" 1051
      (1/20) exStmt hmem rfl hnz).mp h
    rw [htot, abs_of_nonneg (by norm_num : (0:ℚ) ≤ 1051 - 1000),
      abs_of_nonneg (by norm_num : (0:ℚ) ≤ 1000),
      max_eq_left (by norm_num : (1:ℚ) ≤ 1000)] at hle
    norm_num at hle

/-- **C4 counterexample.** A stored statement with the nonzero positive
total 1/100 matches an incoming total of exactly 0 at the default tolerance
1/20 (its difference ratio is 1/100 ≤ 1/20), so a zero-vs-nonzero pair can
match, contradicting the claim that it never does. -/
theorem find_similar_zero_vs_nonzero_counterexample :
    posTotal exStmtSmall ≠ 0 ∧
    (∃ c ∈ find_similar_statement exDBSmall "KTB" "2026-02" 0 (1/20),
      c.stmt = exStmtSmall) := by
  have htot : posTotal exStmtSmall = 1/100 := by
    norm_num [posTotal, exStmtSmall]
  have hnz : posTotal exStmtSmall ≠ 0 := by rw [htot]; norm_num
  refine ⟨hnz, ⟨_, find_similar_mem_of_ratio exDBSmall "KTB" "2026-02" 0
    (1/20) exStmtSmall (by simp [exDBSmall]) rfl hnz ?_, rfl⟩⟩
  rw [htot, zero_sub, abs_neg,
    abs_of_nonneg (by norm_num : (0:ℚ) ≤ 1/100),
    max_eq_right (by norm_num : (1/100:ℚ) ≤ 1)]
  norm_num

/-- **C4 (amended).** Both-zero totals match with ratio 0; a zero stored
total never matches a nonzero incoming total; and a nonzero stored total
matches a zero incoming total exactly when `|S| / max |S| 1 ≤ tolerance`
(rather than never). -/
theorem find_similar_zero_totals (db : DB) (bank period : String) (tol : ℚ)
    (s : Stmt) (hs : s ∈ db.stmts) (hp : s.period = period) :
    (posTotal s = 0 →
      ∃ c ∈ find_similar_statement db bank period 0 tol,
        c.stmt = s ∧ c.diff_ratio = 0) ∧
    (∀ T : ℚ, posTotal s = 0 → T ≠ 0 →
      ¬∃ c ∈ find_similar_statement db bank period T tol, c.stmt = s) ∧
    (posTotal s ≠ 0 →
      ((∃ c ∈ find_similar_statement db bank period 0 tol, c.stmt = s) ↔
        |posTotal s| / max |posTotal s| 1 ≤ tol)) := by
  refine ⟨?_, ?_, ?_⟩
  · intro h0
    exact ⟨_, find_similar_mem_of_zero db bank period tol s hs hp h0, rfl,
      rfl⟩
  · rintro T h0 hT ⟨c, hc, hcs⟩
    obtain ⟨-, -, -, hcase⟩ := find_similar_sound db bank period T tol c hc
    rw [hcs] at hcase
    rcases hcase with ⟨-, hT0, -⟩ | ⟨hnz, -, -⟩
    · exact hT hT0
    · exact hnz h0
  · intro hnz
    constructor
    · rintro ⟨c, hc, hcs⟩
      obtain ⟨-, -, -, hcase⟩ := find_similar_sound db bank period 0 tol c hc
      rw [hcs] at hcase
      rcases hcase with ⟨h0, -, -⟩ | ⟨-, heq, hle⟩
      · exact absurd h0 hnz
      · rw [heq] at hle
        rwa [zero_sub, abs_neg] at hle
    · intro hle
      exact ⟨_, find_similar_mem_of_ratio db bank period 0 tol s hs hp hnz
        (by rwa [zero_sub, abs_neg]), rfl⟩

/-- **C4 witness.** The empty-transaction statement (total 0) matches an
incoming 0 with ratio 0 and never matches the incoming total 5. -/
theorem find_similar_zero_totals_witness :
    (∃ c ∈ find_similar_statement exDBZero "SCB" "2026-03" 0 (1/20),
      c.stmt = exStmtZero ∧ c.diff_ratio = 0) ∧
    ¬(∃ c ∈ find_similar_statement exDBZero "SCB" "2026-03" 5 (1/20),
      c.stmt = exStmtZero) := by
  have hmem : exStmtZero ∈ exDBZero.stmts := by simp [exDBZero]
  have h0 : posTotal exStmtZero = 0 := rfl
  constructor
  · exact (find_similar_zero_totals exDBZero "SCB" "2026-03" (1/20)
      exStmtZero hmem rfl).1 h0
  · exact (find_similar_zero_totals exDBZero "SCB" "2026-03" (1/20)
      exStmtZero hmem rfl).2.1 5 h0 (by norm_num)

/-- **C5 counterexample.** Stored amount 1000, candidate amount 1001 on the
same date with the same description: the difference is exactly 1.0, and the
SQL predicate `ABS(amount - ?) < 1.0` rejects it, so neither an exact nor a
soft match is counted — the claim says a difference of exactly 1.0 counts. -/
theorem overlap_slack_boundary_counterexample :
    |(1000:ℚ) - 1001| = 1 ∧
    (find_overlapping_transactions exDB
      [⟨"2026-01-15", "X", 1001⟩]).exact_count = 0 ∧
    (find_overlapping_transactions exDB
      [⟨"2026-01-15", "X", 1001⟩]).soft_count = 0 := by
  refine ⟨?_, ?_⟩
  · rw [abs_of_nonpos (by norm_num : (1000:ℚ) - 1001 ≤ 0)]
    norm_num
  · norm_num [find_overlapping_transactions, exactMatchB, softMatchB,
      allTxs, exDB, exStmt, abs_lt, List.filter, List.any]

/-- **C5 (amended).** A positive-amount candidate counts as an exact match
exactly when some stored transaction has the same date, the same
description, and an amount differing by STRICTLY less than 1.0; a soft
match requires the same date and an amount differing by strictly less than
1.0, description ignored. A difference of exactly 1.0 does not match. -/
theorem overlap_match_conditions (db : DB) (c : Tx) :
    (exactMatchB db c = true ↔
      ∃ t ∈ allTxs db, t.trans_date = c.trans_date ∧
        t.description = c.description ∧ |t.amount - c.amount| < 1) ∧
    (softMatchB db c = true ↔
      ∃ t ∈ allTxs db, t.trans_date = c.trans_date ∧
        |t.amount - c.amount| < 1) :=
  ⟨exactMatchB_iff db c, softMatchB_iff db c⟩

/-- **C6.** The overlap ratio always lies in `[0, 1]`; when at least one
positive-amount candidate exists, it is 0 exactly when no positive-amount
candidate soft-matches a stored transaction and 1 exactly when every
positive-amount candidate soft-matches one. -/
theorem overlap_ratio_bounds (db : DB) (cands : List Tx) :
    0 ≤ (find_overlapping_transactions db cands).overlap_ratio ∧
    (find_overlapping_transactions db cands).overlap_ratio ≤ 1 ∧
    (cands.filter (fun t => decide (0 < t.amount)) ≠ [] →
      (((find_overlapping_transactions db cands).overlap_ratio = 0 ↔
          ∀ c ∈ cands, 0 < c.amount →
            ¬∃ t ∈ allTxs db, t.trans_date = c.trans_date ∧
              |t.amount - c.amount| < 1) ∧
        ((find_overlapping_transactions db cands).overlap_ratio = 1 ↔
          ∀ c ∈ cands, 0 < c.amount →
            ∃ t ∈ allTxs db, t.trans_date = c.trans_date ∧
              |t.amount - c.amount| < 1))) := by
  by_cases hemp : cands.isEmpty
  · have hc : cands = [] := List.isEmpty_iff.mp hemp
    subst hc
    simp [find_overlapping_transactions]
  · by_cases hq : (cands.filter (fun t => decide (0 < t.amount))).length = 0
    · have hres : find_overlapping_transactions db cands =
        ⟨0, 0, 0, cands.length, none⟩ := by
        simp only [find_overlapping_transactions, hemp, Bool.false_eq_true,
          if_false, hq, if_true]
      rw [hres]
      refine ⟨le_refl 0, zero_le_one, ?_⟩
      intro hne
      exact absurd (List.length_eq_zero.mp hq) hne
    · set qual := cands.filter (fun t => decide (0 < t.amount)) with hqual
      have hres : find_overlapping_transactions db cands =
        ⟨(qual.filter (fun t => exactMatchB db t)).length,
         (qual.filter (fun t => softMatchB db t)).length,
         ((qual.filter (fun t => softMatchB db t)).length : ℚ) /
           (qual.length : ℚ),
         cands.length, some qual.length⟩ := by
        simp only [find_overlapping_transactions, hemp, Bool.false_eq_true,
          if_false, ← hqual, hq, if_neg hq]
      rw [hres]
      have hposn : 0 < qual.length := Nat.pos_of_ne_zero hq
      have hposq : (0 : ℚ) < (qual.length : ℚ) := by exact_mod_cast hposn
      have hsle : (qual.filter (fun t => softMatchB db t)).length ≤
          qual.length := List.length_filter_le _ _
      refine ⟨div_nonneg (Nat.cast_nonneg _) (Nat.cast_nonneg _),
        (div_le_one hposq).mpr (by exact_mod_cast hsle), ?_⟩
      intro _
      have hmem : ∀ c : Tx, c ∈ qual ↔ c ∈ cands ∧ 0 < c.amount := by
        intro c
        rw [hqual, List.mem_filter, decide_eq_true_eq]
      constructor
      · rw [div_eq_zero_iff]
        constructor
        · rintro (h | h)
          · intro c hc hca hex
            have hcq : c ∈ qual := (hmem c).mpr ⟨hc, hca⟩
            have h0 : (qual.filter (fun t => softMatchB db t)).length = 0 := by
              exact_mod_cast h
            have hnil := List.length_eq_zero.mp h0
            have := List.filter_eq_nil_iff.mp hnil c hcq
            rw [softMatchB_iff] at this
            rcases hex with ⟨t, ht, h1, h2⟩
            exact this ⟨t, ht, h1, h2⟩
          · exact absurd h (ne_of_gt hposq)
        · intro hno
          left
          have : qual.filter (fun t => softMatchB db t) = [] := by
            rw [List.filter_eq_nil_iff]
            intro c hc
            obtain ⟨hcc, hca⟩ := (hmem c).mp hc
            rw [softMatchB_iff]
            intro hex
            exact hno c hcc hca hex
          rw [this]
          simp
      · rw [div_eq_one_iff_eq (ne_of_gt hposq), Nat.cast_inj,
          length_filter_eq_iff]
        constructor
        · intro hall c hc hca
          have := hall c ((hmem c).mpr ⟨hc, hca⟩)
          rwa [softMatchB_iff] at this
        · intro hall c hc
          obtain ⟨hcc, hca⟩ := (hmem c).mp hc
          rw [softMatchB_iff]
          exact hall c hcc hca

/-- **C6 witness.** One stored transaction and a single positive candidate
on the same date with the same amount: the ratio is within `[0, 1]` and
equals 1 because the only positive candidate soft-matches. -/
theorem overlap_ratio_bounds_witness :
    0 ≤ (find_overlapping_transactions exDB
      [⟨"2026-01-15", "Y", 1000⟩]).overlap_ratio ∧
    (find_overlapping_transactions exDB
      [⟨"2026-01-15", "Y", 1000⟩]).overlap_ratio = 1 := by
  obtain ⟨h0, h1, hiff⟩ :=
    overlap_ratio_bounds exDB [⟨"2026-01-15", "Y", 1000⟩]
  have hne : ([⟨"2026-01-15", "Y", (1000:ℚ)⟩] : List Tx).filter
      (fun t => decide (0 < t.amount)) ≠ [] := by
    norm_num [List.filter]
  refine ⟨h0, ((hiff hne).2.mpr ?_)⟩
  intro c hc hca
  rw [List.mem_singleton] at hc
  subst hc
  refine ⟨⟨"2026-01-15", "X", 1000⟩, by simp [allTxs, exDB, exStmt], rfl, ?_⟩
  rw [sub_self, abs_zero]
  norm_num

/-- **C7 counterexample.** On an empty candidate batch (and likewise on any
batch with no positive-amount candidate) the returned dict has NO
positive-amount-candidate-count entry (`positive_total` is absent), so the
result does not always carry that count. -/
theorem overlap_positive_count_missing_counterexample :
    (find_overlapping_transactions exDB []).positive_total = none := rfl

/-- **C7 (amended).** The result always carries the exact count, soft
count, ratio and total; the positive-amount candidate count is present
exactly when the batch has a positive-amount candidate (and then equals the
number of such candidates), and whenever there is none the exact and soft
counts are 0, the ratio is 0, and `total` is the batch size. -/
theorem overlap_result_fields (db : DB) (cands : List Tx) :
    ((find_overlapping_transactions db cands).positive_total.isSome ↔
      ∃ c ∈ cands, 0 < c.amount) ∧
    (∀ n, (find_overlapping_transactions db cands).positive_total = some n →
      n = (cands.filter (fun t => decide (0 < t.amount))).length) ∧
    ((∀ c ∈ cands, ¬0 < c.amount) →
      (find_overlapping_transactions db cands).exact_count = 0 ∧
      (find_overlapping_transactions db cands).soft_count = 0 ∧
      (find_overlapping_transactions db cands).overlap_ratio = 0 ∧
      (find_overlapping_transactions db cands).total = cands.length) := by
  have hmemq : ∀ c : Tx,
      c ∈ cands.filter (fun t => decide (0 < t.amount)) ↔
        c ∈ cands ∧ 0 < c.amount := by
    intro c
    rw [List.mem_filter, decide_eq_true_eq]
  by_cases hemp : cands.isEmpty
  · have hc : cands = [] := List.isEmpty_iff.mp hemp
    subst hc
    simp [find_overlapping_transactions]
  · by_cases hq : (cands.filter (fun t => decide (0 < t.amount))).length = 0
    · have hres : find_overlapping_transactions db cands =
        ⟨0, 0, 0, cands.length, none⟩ := by
        simp only [find_overlapping_transactions, hemp, Bool.false_eq_true,
          if_false, hq, if_true]
      rw [hres]
      have hnil := List.length_eq_zero.mp hq
      refine ⟨?_, by simp, fun _ => ⟨rfl, rfl, rfl, rfl⟩⟩
      simp only [Option.isSome_none, Bool.false_eq_true, false_iff]
      rintro ⟨c, hc, hca⟩
      have : c ∈ cands.filter (fun t => decide (0 < t.amount)) :=
        (hmemq c).mpr ⟨hc, hca⟩
      rw [hnil] at this
      exact absurd this (List.not_mem_nil c)
    · set qual := cands.filter (fun t => decide (0 < t.amount)) with hqual
      have hres : find_overlapping_transactions db cands =
        ⟨(qual.filter (fun t => exactMatchB db t)).length,
         (qual.filter (fun t => softMatchB db t)).length,
         ((qual.filter (fun t => softMatchB db t)).length : ℚ) /
           (qual.length : ℚ),
         cands.length, some qual.length⟩ := by
        simp only [find_overlapping_transactions, hemp, Bool.false_eq_true,
          if_false, ← hqual, hq, if_neg hq]
      rw [hres]
      refine ⟨?_, ?_, ?_⟩
      · simp only [Option.isSome_some, true_iff]
        rcases List.exists_mem_of_length_pos (Nat.pos_of_ne_zero hq) with
          ⟨c, hc⟩
        obtain ⟨hcc, hca⟩ := (hmemq c).mp hc
        exact ⟨c, hcc, hca⟩
      · intro n hn
        injection hn with hn
        exact hn.symm
      · intro hall
        exfalso
        apply hq
        rw [List.length_eq_zero, hqual, List.filter_eq_nil_iff]
        intro c hc
        rw [decide_eq_true_eq]
        exact hall c hc

/-- **C7 witness.** A two-element batch of credits (negative amounts): the
positive count entry is absent, the counts and ratio are zero, and `total`
still reports the batch size 2. -/
theorem overlap_result_fields_witness :
    ¬(find_overlapping_transactions exDB [⟨"2026-01-10", "P", -5⟩,
        ⟨"2026-01-11", "Q", -3⟩]).positive_total.isSome = true ∧
    (find_overlapping_transactions exDB [⟨"2026-01-10", "P", -5⟩,
        ⟨"2026-01-11", "Q", -3⟩]).overlap_ratio = 0 ∧
    (find_overlapping_transactions exDB [⟨"2026-01-10", "P", -5⟩,
        ⟨"2026-01-11", "Q", -3⟩]).total = 2 := by
  obtain ⟨hiff, -, himp⟩ := overlap_result_fields exDB
    [⟨"2026-01-10", "P", -5⟩, ⟨"2026-01-11", "Q", -3⟩]
  have hno : ∀ c ∈ ([⟨"2026-01-10", "P", -5⟩, ⟨"2026-01-11", "Q", -3⟩] :
      List Tx), ¬0 < c.amount := by
    intro c hc
    rcases List.mem_cons.mp hc with rfl | hc
    · norm_num
    · rcases List.mem_cons.mp hc with rfl | hc
      · norm_num
      · exact absurd hc (List.not_mem_nil c)
  obtain ⟨-, -, hr, ht⟩ := himp hno
  refine ⟨?_, hr, ht⟩
  rw [hiff]
  rintro ⟨c, hc, hca⟩
  exact hno c hc hca

/-- **C10.** In every overlap result, the exact count never exceeds the
soft count (an exact match is in particular a soft match), and the soft
count never exceeds the number of positive-amount candidates (each
qualifying candidate contributes at most one to each count). -/
theorem overlap_counts_monotone (db : DB) (cands : List Tx) :
    (find_overlapping_transactions db cands).exact_count ≤
      (find_overlapping_transactions db cands).soft_count ∧
    (find_overlapping_transactions db cands).soft_count ≤
      (cands.filter (fun t => decide (0 < t.amount))).length := by
  by_cases hemp : cands.isEmpty
  · have hc : cands = [] := List.isEmpty_iff.mp hemp
    subst hc
    simp [find_overlapping_transactions]
  · by_cases hq : (cands.filter (fun t => decide (0 < t.amount))).length = 0
    · have hres : find_overlapping_transactions db cands =
        ⟨0, 0, 0, cands.length, none⟩ := by
        simp only [find_overlapping_transactions, hemp, Bool.false_eq_true,
          if_false, hq, if_true]
      rw [hres]
      exact ⟨le_refl 0, Nat.zero_le _⟩
    · set qual := cands.filter (fun t => decide (0 < t.amount)) with hqual
      have hres : find_overlapping_transactions db cands =
        ⟨(qual.filter (fun t => exactMatchB db t)).length,
         (qual.filter (fun t => softMatchB db t)).length,
         ((qual.filter (fun t => softMatchB db t)).length : ℚ) /
           (qual.length : ℚ),
         cands.length, some qual.length⟩ := by
        simp only [find_overlapping_transactions, hemp, Bool.false_eq_true,
          if_false, ← hqual, hq, if_neg hq]
      rw [hres]
      constructor
      · rw [← List.countP_eq_length_filter, ← List.countP_eq_length_filter]
        exact List.countP_mono_left (fun x _ hx => exactMatchB_imp_soft db x hx)
      · exact List.length_filter_le _ _

/-- The statement matcher on the empty period returns nothing when no
stored statement has an empty period (always true for statements written by
`save_transactions`, whose derived period is a nonempty string). -/
theorem find_similar_no_period (db : DB) (bank : String) (T tol : ℚ)
    (h : ∀ s ∈ db.stmts, s.period ≠ "") :
    find_similar_statement db bank "" T tol = [] := by
  rw [find_similar_statement]
  have hfil : db.stmts.filter (fun s => s.period == "") = [] := by
    rw [List.filter_eq_nil_iff]
    intro s hs
    rw [beq_iff_eq]
    exact h s hs
  rw [hfil]
  rfl

/-- **C1.** Under the invariant that stored statement periods are nonempty
(they are `max(dates)[:7]` of nonempty date strings or the current month),
a pending batch is parked behind the explicit duplicate-confirmation step
iff the statement matcher returns a candidate for the batch's estimated
period and positive-amount total (at the default 5% tolerance) or the soft
overlap ratio is at least 1/2; otherwise it is saved directly. -/
theorem import_decision_iff (db : DB) (bank : String) (final : List Tx)
    (hper : ∀ s ∈ db.stmts, s.period ≠ "") :
    import_decision db bank final = ImportOutcome.awaitingConfirmation ↔
      (find_similar_statement db bank (estPeriod final)
          (batchPosTotal final) ≠ [] ∨
        (1/2 : ℚ) ≤ (find_overlapping_transactions db final).overlap_ratio) := by
  have hsim : (if estPeriod final ≠ "" then
      find_similar_statement db bank (estPeriod final) (batchPosTotal final)
    else []) =
      find_similar_statement db bank (estPeriod final)
        (batchPosTotal final) := by
    by_cases hp : estPeriod final ≠ ""
    · rw [if_pos hp]
    · rw [if_neg hp]
      rw [not_not] at hp
      rw [hp, find_similar_no_period db bank _ _ hper]
  simp only [import_decision, hsim]
  by_cases hcond : find_similar_statement db bank (estPeriod final)
      (batchPosTotal final) ≠ [] ∨
      (1/2 : ℚ) ≤ (find_overlapping_transactions db final).overlap_ratio
  · rw [if_pos hcond]
    exact iff_of_true rfl hcond
  · rw [if_neg hcond]
    exact iff_of_false (fun h => ImportOutcome.noConfusion h) hcond

/-- **C1 witness.** With one stored 2026-01 statement of total 1000, a
batch with a single 1050 expense in 2026-01 is similar (ratio exactly the
tolerance), so the decision defers to confirmation. -/
theorem import_decision_iff_witness :
    import_decision exDB "KTB" [⟨"2026-01-20", "Y", 1050⟩] =
      ImportOutcome.awaitingConfirmation := by
  have hper : ∀ s ∈ exDB.stmts, s.period ≠ "" := by
    intro s hs
    rw [show exDB.stmts = [exStmt] from rfl, List.mem_singleton] at hs
    subst hs
    simp [exStmt]
  refine (import_decision_iff exDB "KTB" _ hper).mpr (Or.inl ?_)
  have hest : estPeriod [⟨"2026-01-20", "Y", (1050:ℚ)⟩] = "2026-01" := rfl
  have hbat : batchPosTotal [⟨"2026-01-20", "Y", (1050:ℚ)⟩] = 1050 := by
    norm_num [batchPosTotal, List.filter]
  rw [hest, hbat]
  have htot : posTotal exStmt = 1000 := by norm_num [posTotal, exStmt]
  have hnz : posTotal exStmt ≠ 0 := by rw [htot]; norm_num
  refine List.ne_nil_of_mem (find_similar_mem_of_ratio exDB "KTB" "2026-01"
    1050 (1/20) exStmt (by simp [exDB]) rfl hnz ?_)
  rw [htot, abs_of_nonneg (by norm_num : (0:ℚ) ≤ 1050 - 1000),
    abs_of_nonneg (by norm_num : (0:ℚ) ≤ 1000),
    max_eq_left (by norm_num : (1:ℚ) ≤ 1000)]
  norm_num

/-- The row predicate of `find_duplicate_statement` agrees with
`ContainsHash` on rows with a non-null `file_hash`. -/
theorem containsHash_iff_rowtest (fp : String) (s : Stmt)
    (hsome : s.file_hash.isSome = true) :
    ((splitHashes (s.file_hash.getD "")).contains fp = true ↔
      ContainsHash fp s) := by
  obtain ⟨h, hh⟩ := Option.isSome_iff_exists.mp hsome
  rw [hh]
  simp only [Option.getD_some, ContainsHash, hh, List.contains,
    List.elem_iff]
  constructor
  · intro hm
    exact ⟨h, rfl, hm⟩
  · rintro ⟨h2, hh2, hm⟩
    injection hh2 with hh2
    subst hh2
    exact hm

/-- The filtered `find?` scan of `find_duplicate_statement`: it returns
`none` iff no stored statement contains the fingerprint, and any hit is a
containing statement none of whose predecessors contains it. -/
theorem findDup_aux (fp : String) :
    ∀ l : List Stmt,
      (((l.filter (fun s => s.file_hash.isSome)).find?
          (fun s => (splitHashes (s.file_hash.getD "")).contains fp) =
            none) ↔
        ∀ s ∈ l, ¬ContainsHash fp s) ∧
      (∀ s, (l.filter (fun s => s.file_hash.isSome)).find?
          (fun s => (splitHashes (s.file_hash.getD "")).contains fp) =
            some s →
        ContainsHash fp s ∧
        ∃ pre post, l = pre ++ s :: post ∧ ∀ x ∈ pre, ¬ContainsHash fp x)
  | [] => by
    simp [ContainsHash]
  | a :: rest => by
    obtain ⟨ih1, ih2⟩ := findDup_aux fp rest
    by_cases ha : a.file_hash.isSome = true
    · have hstep : List.filter (fun s => s.file_hash.isSome) (a :: rest) =
          a :: List.filter (fun s => s.file_hash.isSome) rest := by
        rw [List.filter_cons, if_pos ha]
      rw [hstep]
      by_cases hpa : (splitHashes (a.file_hash.getD "")).contains fp = true
      · rw [List.find?_cons_of_pos
          (p := fun (s : Stmt) => (splitHashes (s.file_hash.getD "")).contains fp)
          _ hpa]
        have hca : ContainsHash fp a :=
          (containsHash_iff_rowtest fp a ha).mp hpa
        constructor
        · constructor
          · intro h
            exact absurd h (by simp)
          · intro hall
            exact absurd hca (hall a (List.mem_cons_self a rest))
        · intro s hs
          injection hs with hs
          subst hs
          exact ⟨hca, [], rest, rfl,
            fun x hx => absurd hx (List.not_mem_nil x)⟩
      · rw [List.find?_cons_of_neg
          (p := fun (s : Stmt) => (splitHashes (s.file_hash.getD "")).contains fp)
          _ hpa]
        have hnca : ¬ContainsHash fp a := fun hc =>
          hpa ((containsHash_iff_rowtest fp a ha).mpr hc)
        constructor
        · rw [ih1, List.forall_mem_cons]
          exact ⟨fun h => ⟨hnca, h⟩, fun h => h.2⟩
        · intro s hs
          obtain ⟨hcs, pre, post, hsplit, hpre⟩ := ih2 s hs
          refine ⟨hcs, a :: pre, post, by rw [hsplit, List.cons_append], ?_⟩
          intro x hx
          rcases List.mem_cons.mp hx with rfl | hx
          · exact hnca
          · exact hpre x hx
    · have hstep : List.filter (fun s => s.file_hash.isSome) (a :: rest) =
          List.filter (fun s => s.file_hash.isSome) rest := by
        rw [List.filter_cons, if_neg ha]
      rw [hstep]
      have hnca : ¬ContainsHash fp a := by
        rintro ⟨h, hh, -⟩
        rw [hh] at ha
        exact ha rfl
      constructor
      · rw [ih1, List.forall_mem_cons]
        exact ⟨fun h => ⟨hnca, h⟩, fun h => h.2⟩
      · intro s hs
        obtain ⟨hcs, pre, post, hsplit, hpre⟩ := ih2 s hs
        refine ⟨hcs, a :: pre, post, by rw [hsplit, List.cons_append], ?_⟩
        intro x hx
        rcases List.mem_cons.mp hx with rfl | hx
        · exact hnca
        · exact hpre x hx

/-- **C9.** `find_duplicate_statement` is a pure scan: an empty fingerprint
yields `none`; otherwise it yields `none` iff no stored statement's
comma-separated fingerprint set contains the fingerprint, and any returned
statement contains it and is the first such statement in stored order. -/
theorem find_duplicate_spec (db : DB) (fp : String) :
    (fp = "" → find_duplicate_statement db fp = none) ∧
    (fp ≠ "" →
      ((find_duplicate_statement db fp = none ↔
          ∀ s ∈ db.stmts, ¬ContainsHash fp s) ∧
        ∀ s, find_duplicate_statement db fp = some s →
          ContainsHash fp s ∧
          ∃ pre post, db.stmts = pre ++ s :: post ∧
            ∀ x ∈ pre, ¬ContainsHash fp x)) := by
  constructor
  · intro h
    rw [find_duplicate_statement, if_pos h]
  · intro h
    rw [find_duplicate_statement, if_neg h]
    exact findDup_aux fp db.stmts

/-- **C9 witness.** Fingerprint `h2` is found inside the stored comma-join
`h1,h2` (every member of the set is checked), the hit is first in stored
order, and the empty fingerprint returns `none`. -/
theorem find_duplicate_spec_witness :
    ContainsHash "h2" exStmt ∧
    (∃ pre post, exDB.stmts = pre ++ exStmt :: post ∧
      ∀ x ∈ pre, ¬ContainsHash "h2" x) ∧
    find_duplicate_statement exDB "" = none := by
  have hne : ("h2" : String) ≠ "" := by decide
  have hfind : find_duplicate_statement exDB "h2" = some exStmt := by
    rw [find_duplicate_statement, if_neg hne]
    rw [show exDB.stmts = [exStmt] from rfl]
    have hsome : exStmt.file_hash.isSome = true := rfl
    have hstep : List.filter (fun s => s.file_hash.isSome) [exStmt] =
        [exStmt] := by
      rw [List.filter_cons, if_pos hsome]
      rfl
    rw [hstep]
    refine List.find?_cons_of_pos
      (p := fun (s : Stmt) => (splitHashes (s.file_hash.getD "")).contains "h2") _ ?_
    decide
  obtain ⟨hc, hfirst⟩ :=
    ((find_duplicate_spec exDB "h2").2 hne).2 exStmt hfind
  exact ⟨hc, hfirst, (find_duplicate_spec exDB "").1 rfl⟩

/-- When no insert raises, the insert loop appends exactly one row per
candidate transaction to the pending view and leaves `committed` alone. -/
theorem txInsertLoop_ok (failAt : Nat → Bool) (stmt_id : Nat) (bank : String) :
    ∀ (ts : List InTx) (i : Nat) (c : Conn),
      (∀ j, j < ts.length → failAt (i + j) = false) →
      txInsertLoop failAt stmt_id bank i c ts =
        Except.ok ⟨c.committed,
          ⟨c.pending.stmts, c.pending.txs ++ ts.map (mkTxRow stmt_id bank)⟩⟩
  | [], i, c, h => by
    simp [txInsertLoop]
  | t :: ts, i, c, h => by
    have h0 : failAt i = false := by
      have := h 0 (Nat.succ_pos _)
      simpa using this
    rw [txInsertLoop, if_neg (by rw [h0]; exact Bool.false_ne_true)]
    rw [txInsertLoop_ok failAt stmt_id bank ts (i + 1)
      (c.insertTx (mkTxRow stmt_id bank t)) (fun j hj => by
        have := h (j + 1) (Nat.succ_lt_succ hj)
        rwa [show i + (j + 1) = i + 1 + j by omega] at this)]
    simp [Conn.insertTx, List.append_assoc]

/-- A raise inside the insert loop leaves the durable `committed` state
exactly as it was when the loop started. -/
theorem txInsertLoop_error_committed (failAt : Nat → Bool) (stmt_id : Nat)
    (bank : String) :
    ∀ (ts : List InTx) (i : Nat) (c c' : Conn) (e : String),
      txInsertLoop failAt stmt_id bank i c ts = Except.error (c', e) →
      c'.committed = c.committed
  | [], i, c, c', e, h => by
    rw [txInsertLoop] at h
    exact absurd h (by simp)
  | t :: ts, i, c, c', e, h => by
    rw [txInsertLoop] at h
    by_cases hf : failAt i = true
    · rw [if_pos hf] at h
      injection h with h
      injection h with h1 h2
      rw [← h1]
    · rw [if_neg hf] at h
      exact txInsertLoop_error_committed failAt stmt_id bank ts (i + 1)
        (c.insertTx (mkTxRow stmt_id bank t)) c' e h

/-- If any insert in range raises, the loop ends in the error case. -/
theorem txInsertLoop_error_of_fail (failAt : Nat → Bool) (stmt_id : Nat)
    (bank : String) :
    ∀ (ts : List InTx) (i : Nat) (c : Conn),
      (∃ j, j < ts.length ∧ failAt (i + j) = true) →
      ∃ c' e, txInsertLoop failAt stmt_id bank i c ts =
        Except.error (c', e)
  | [], i, c, h => by
    obtain ⟨j, hj, -⟩ := h
    exact absurd hj (Nat.not_lt_zero j)
  | t :: ts, i, c, h => by
    rw [txInsertLoop]
    by_cases hf : failAt i = true
    · rw [if_pos hf]
      exact ⟨c, "insert failed", rfl⟩
    · rw [if_neg hf]
      obtain ⟨j, hj, hfj⟩ := h
      rcases j with _ | j
      · rw [Nat.add_zero] at hfj
        exact absurd hfj hf
      · exact txInsertLoop_error_of_fail failAt stmt_id bank ts (i + 1)
          (c.insertTx (mkTxRow stmt_id bank t))
          ⟨j, Nat.lt_of_succ_lt_succ hj,
            by rwa [show i + 1 + j = i + (j + 1) by omega]⟩

/-- **C2.** `save_transactions` is atomic and error-transparent: when no
insert raises, the statement row and every transaction row are committed
together; when the statement insert or any transaction insert raises
before the commit, the database is exactly as before the call and the
error is propagated to the caller (the second component is `some`). -/
theorem save_transactions_atomic (stmtFails : Bool) (failAt : Nat → Bool)
    (nowPeriod nowIso : String) (db : FlatDB) (bank : String)
    (filenames : List String) (transactions : List InTx)
    (cutoff_day : Option Nat) (file_hashes : List String) :
    ((stmtFails = false ∧
        ∀ j, j < transactions.length → failAt j = false) →
      save_transactions stmtFails failAt nowPeriod nowIso db bank filenames
          transactions cutoff_day file_hashes =
        (⟨db.stmts ++ [saveStmtRow nowPeriod nowIso bank filenames
            transactions cutoff_day file_hashes],
          db.txs ++ transactions.map
            (mkTxRow (db.stmts.length + 1) bank)⟩, none)) ∧
    ((stmtFails = true ∨
        ∃ j, j < transactions.length ∧ failAt j = true) →
      (save_transactions stmtFails failAt nowPeriod nowIso db bank filenames
          transactions cutoff_day file_hashes).1 = db ∧
      (save_transactions stmtFails failAt nowPeriod nowIso db bank filenames
          transactions cutoff_day file_hashes).2.isSome = true) := by
  constructor
  · rintro ⟨hs, hfail⟩
    subst hs
    rw [save_transactions]
    rw [if_neg (by exact Bool.false_ne_true)]
    have hloop := txInsertLoop_ok failAt
      ((Conn.openDB db).insertStmt (saveStmtRow nowPeriod nowIso bank
        filenames transactions cutoff_day file_hashes)).pending.stmts.length
      bank transactions 0
      ((Conn.openDB db).insertStmt (saveStmtRow nowPeriod nowIso bank
        filenames transactions cutoff_day file_hashes))
      (fun j hj => by rw [Nat.zero_add]; exact hfail j hj)
    simp only []
    rw [hloop]
    simp only [Conn.commit, Conn.close, Conn.insertStmt, Conn.openDB]
    simp [List.length_append]
  · intro hbad
    by_cases hs : stmtFails = true
    · rw [save_transactions, if_pos hs]
      exact ⟨rfl, rfl⟩
    · have hs' : stmtFails = false := by
        rcases stmtFails with _ | _
        · rfl
        · exact absurd rfl hs
      rcases hbad with hb | hb
      · exact absurd hb hs
      · subst hs'
        rw [save_transactions]
        rw [if_neg (by exact Bool.false_ne_true)]
        obtain ⟨c', e, hloop⟩ := txInsertLoop_error_of_fail failAt
          ((Conn.openDB db).insertStmt (saveStmtRow nowPeriod nowIso bank
            filenames transactions cutoff_day file_hashes)).pending.stmts.length
          bank transactions 0
          ((Conn.openDB db).insertStmt (saveStmtRow nowPeriod nowIso bank
            filenames transactions cutoff_day file_hashes))
          (by
            obtain ⟨j, hj, hfj⟩ := hb
            exact ⟨j, hj, by rwa [Nat.zero_add]⟩)
        simp only []
        rw [hloop]
        have hcom := txInsertLoop_error_committed failAt
          ((Conn.openDB db).insertStmt (saveStmtRow nowPeriod nowIso bank
            filenames transactions cutoff_day file_hashes)).pending.stmts.length
          bank transactions 0
          ((Conn.openDB db).insertStmt (saveStmtRow nowPeriod nowIso bank
            filenames transactions cutoff_day file_hashes)) c' e hloop
        constructor
        · show c'.close = db
          rw [Conn.close, hcom]
          rfl
        · rfl

/-- **C2 witness.** On an empty store, a one-transaction save with no
failing insert commits the statement row plus its transaction row, and the
same save with a failing transaction insert leaves the store empty while
surfacing the error. -/
theorem save_transactions_atomic_witness :
    (save_transactions false (fun _ => false) "2026-02" "t0" ⟨[], []⟩ "KTB"
        ["a.pdf"] [⟨"2026-01-15", "", "X", 1000, "c", none⟩] none ["h1"] =
      (⟨[saveStmtRow "2026-02" "t0" "KTB" ["a.pdf"]
          [⟨"2026-01-15", "", "X", 1000, "c", none⟩] none ["h1"]],
        [mkTxRow 1 "KTB" ⟨"2026-01-15", "", "X", 1000, "c", none⟩]⟩,
        none)) ∧
    ((save_transactions false (fun _ => true) "2026-02" "t0" ⟨[], []⟩ "KTB"
        ["a.pdf"] [⟨"2026-01-15", "", "X", 1000, "c", none⟩] none
        ["h1"]).1 = ⟨[], []⟩ ∧
      (save_transactions false (fun _ => true) "2026-02" "t0" ⟨[], []⟩ "KTB"
        ["a.pdf"] [⟨"2026-01-15", "", "X", 1000, "c", none⟩] none
        ["h1"]).2.isSome = true) := by
  constructor
  · have h := (save_transactions_atomic false (fun _ => false) "2026-02" "t0"
      ⟨[], []⟩ "KTB" ["a.pdf"] [⟨"2026-01-15", "", "X", 1000, "c", none⟩]
      none ["h1"]).1 ⟨rfl, fun j _ => rfl⟩
    rw [h]
    rfl
  · exact (save_transactions_atomic false (fun _ => true) "2026-02" "t0"
      ⟨[], []⟩ "KTB" ["a.pdf"] [⟨"2026-01-15", "", "X", 1000, "c", none⟩]
      none ["h1"]).2 (Or.inr ⟨0, Nat.zero_lt_one, rfl⟩)

/-- One step of the `mostCommon` fold preserves the invariant. -/
theorem mcInv_step {α : Type} [DecidableEq α] (l p : List α)
    (best : Option α) (c : α) (h : McInv l p best) :
    McInv l (p ++ [c]) (mcStep l best c) := by
  cases best with
  | none =>
    have hp : p = [] := h
    subst hp
    simp only [McInv, mcStep, List.nil_append]
    refine ⟨List.mem_singleton.mpr rfl, ?_, [], [], rfl, ?_⟩
    · intro x hx
      rw [List.mem_singleton.mp hx]
    · intro x hx
      exact absurd hx (List.not_mem_nil x)
  | some b =>
    obtain ⟨hmem, hmax, p1, p2, hsplit, hlt⟩ := h
    simp only [mcStep]
    by_cases hcb : l.count b < l.count c
    · rw [if_pos hcb]
      simp only [McInv]
      refine ⟨List.mem_append_right p (List.mem_singleton.mpr rfl), ?_,
        p, [], rfl, ?_⟩
      · intro x hx
        rcases List.mem_append.mp hx with hx | hx
        · exact le_of_lt (lt_of_le_of_lt (hmax x hx) hcb)
        · rw [List.mem_singleton.mp hx]
      · intro x hx
        exact lt_of_le_of_lt (hmax x hx) hcb
    · rw [if_neg hcb]
      simp only [McInv]
      refine ⟨List.mem_append_left _ hmem, ?_, p1, p2 ++ [c], ?_, hlt⟩
      · intro x hx
        rcases List.mem_append.mp hx with hx | hx
        · exact hmax x hx
        · rw [List.mem_singleton.mp hx]
          exact le_of_not_lt hcb
      · rw [hsplit]
        simp [List.append_assoc]

/-- The `mostCommon` fold carries the invariant over any suffix. -/
theorem mcInv_foldl {α : Type} [DecidableEq α] (l : List α) :
    ∀ (rest p : List α) (best : Option α), McInv l p best →
      McInv l (p ++ rest) (rest.foldl (mcStep l) best)
  | [], p, best, h => by
    rw [List.append_nil, List.foldl_nil]
    exact h
  | c :: rest, p, best, h => by
    rw [List.foldl_cons,
      show p ++ c :: rest = (p ++ [c]) ++ rest by simp]
    exact mcInv_foldl l rest (p ++ [c]) _ (mcInv_step l p best c h)

/-- The invariant holds of the finished fold over the whole list. -/
theorem mostCommon_inv {α : Type} [DecidableEq α] (l : List α) :
    McInv l l (mostCommon l) := by
  have h := mcInv_foldl l l [] none (by simp only [McInv])
  rwa [List.nil_append] at h

/-- **C8.** Each per-field consensus reduction of `process_uploaded_file`
is the `mostCommon` reduction of the non-empty values observed across the
ordered page list (so it is deterministic in that list); `mostCommon`
returns `none` exactly on no observations, and otherwise a most frequent
observed value whose first occurrence is no later than that of any other
value of maximal count (ties break to the first-observed value). -/
theorem consensus_majority (pages : List PageResult) {α : Type}
    [DecidableEq α] (l : List α) :
    (cutoffConsensus pages = mostCommon (collectCutoffDays pages) ∧
      bankNameConsensus pages = mostCommon (collectBankNames pages) ∧
      cardNameConsensus pages = mostCommon (collectCardNames pages)) ∧
    (mostCommon l = none ↔ l = []) ∧
    (∀ v, mostCommon l = some v →
      v ∈ l ∧ (∀ x ∈ l, l.count x ≤ l.count v) ∧
      ∀ x ∈ l, l.count x = l.count v →
        l.indexOf v ≤ l.indexOf x) := by
  refine ⟨⟨rfl, rfl, rfl⟩, ?_, ?_⟩
  · constructor
    · intro h
      have hinv := mostCommon_inv l
      rw [h] at hinv
      exact hinv
    · intro h
      subst h
      rfl
  · intro v hv
    have hinv := mostCommon_inv l
    rw [hv] at hinv
    obtain ⟨hmem, hmax, p1, p2, hsplit, hlt⟩ := hinv
    refine ⟨hmem, hmax, ?_⟩
    intro x hx hcnt
    have hvnot : v ∉ p1 := fun hvp => lt_irrefl _ (hlt v hvp)
    have hxnot : x ∉ p1 := fun hxp => by
      have hx2 := hlt x hxp
      rw [hcnt] at hx2
      exact lt_irrefl _ hx2
    rw [hsplit, List.indexOf_append_of_not_mem hvnot,
      List.indexOf_append_of_not_mem hxnot, List.indexOf_cons_self]
    omega

/-- **C8 witness.** Observed cutoff days `[20, 20, 25]` reduce to `20`,
and the frequency tie `["A", "B"]` reduces to the first-observed `"A"`. -/
theorem consensus_majority_witness :
    mostCommon [20, 20, 25] = some 20 ∧
    mostCommon ["A", "B"] = some "A" ∧
    (20 : ℕ) ∈ [20, 20, 25] ∧ ("A" : String) ∈ ["A", "B"] := by
  have h1 := (consensus_majority [] [20, 20, 25]).2.2 20 (by decide)
  have h2 := (consensus_majority [] ["A", "B"]).2.2 "A" (by decide)
  exact ⟨by decide, by decide, h1.1, h2.1⟩

end CreditAnalyzer
